import Mathlib

/-!
Verification of the distortos SD/MMC-over-SPI block-device driver and of the
scheduler / mutex behavior described by the specification.

The driver code (src/source/devices/memory/SpiSdMmcCard.cpp) is embedded
shallowly: external collaborators (the SPI master, the tick clock, the
underlying SPI device) are abstracted as oracles supplying the result of each
interaction, and every driver function is translated statement by statement.
Machine integers are modelled as Nat with explicit reduction modulo powers of
two where the C code can overflow. The scheduler and mutex, whose sources are
not part of this fragment, are modelled from the specification where a claim
needs them; such definitions carry a doc comment saying so.
-/

namespace Distortos

/-! ## Error codes (newlib errno values used by distortos) -/

/-- errno EPERM. -/
def EPERM : Int := 1

/-- errno EIO, input/output error. -/
def EIO : Int := 5

/-- errno EBADF, bad file descriptor (device not opened). -/
def EBADF : Int := 9

/-- errno EAGAIN, resource temporarily unavailable. -/
def EAGAIN : Int := 11

/-- errno EBUSY. -/
def EBUSY : Int := 16

/-- errno EINVAL, invalid argument. -/
def EINVAL : Int := 22

/-- errno ENOSPC, no space left on device. -/
def ENOSPC : Int := 28

/-- errno ETIMEDOUT. -/
def ETIMEDOUT : Int := 116

/-! ## The byte-polling wait primitive (SpiSdMmcCard.cpp, waitWhile)

The C++ function polls: it computes a deadline from the current tick and the
requested duration, and while the clock reads below the deadline it reads one
byte over SPI; a transaction failure propagates its code, a byte falsifying
the predicate ends the wait with success, and reaching the deadline yields
ETIMEDOUT.

The embedding abstracts the two collaborators: `clock n` is the value the
n-th call of TickClock::now returns (call 0 is the one computing the
deadline), and `spi n` is the outcome of the n-th one-byte SPI transaction.
The unbounded C loop is given fuel; `none` means the fuel ran out before the
loop decided. -/

/-- Outcome of a single one-byte SPI transaction inside the polling loop:
either the transaction fails with an error code, or it yields a byte. -/
inductive SpiByteResult where
  | fail (code : Int)
  | ok (byte : Nat)
deriving DecidableEq

/-- Loop body of waitWhile: at counter k it compares `clock k` with the
deadline, reads `spi k` and either returns or continues with k + 1. -/
def waitWhileGo (clock : Nat → Nat) (spi : Nat → SpiByteResult) (pred : Nat → Bool)
    (deadline : Nat) : Nat → Nat → Option (Int × Nat)
  | 0, _ => none
  | fuel + 1, k =>
    if clock k < deadline then
      match spi k with
      | SpiByteResult.fail c => some (c, 0)
      | SpiByteResult.ok b =>
        if pred b then waitWhileGo clock spi pred deadline fuel (k + 1) else some (0, b)
    else some ( ETIMEDOUT, 0)

/-- waitWhile from SpiSdMmcCard.cpp: deadline is `clock 0 + duration`, polling
starts with the second clock reading. -/
def waitWhile (clock : Nat → Nat) (spi : Nat → SpiByteResult) (duration : Nat)
    (pred : Nat → Bool) (fuel : Nat) : Option (Int × Nat) :=
  waitWhileGo clock spi pred (clock 0 + duration) fuel 1

/-- waitWhileBusy from SpiSdMmcCard.cpp: waitWhile with the predicate
`byte != 0xff`, keeping only the return code. -/
def waitWhileBusy (clock : Nat → Nat) (spi : Nat → SpiByteResult) (duration : Nat)
    (fuel : Nat) : Option Int :=
  (waitWhile clock spi duration (fun byte => byte != 0xff) fuel).map Prod.fst

/-! ### Lemmas about the polling loop -/

/-- If the polling loop ever answers ETIMEDOUT and no SPI transaction failure
carries the code ETIMEDOUT, then some clock reading reached the deadline. -/
theorem waitWhileGo_timeout_sound (clock : Nat → Nat) (spi : Nat → SpiByteResult)
    (pred : Nat → Bool) (deadline : Nat)
    (hclean : ∀ k c, spi k = SpiByteResult.fail c → c ≠ ETIMEDOUT) :
    ∀ fuel k b, waitWhileGo clock spi pred deadline fuel k = some ( ETIMEDOUT, b) →
      ∃ s, deadline ≤ clock s := by
  intro fuel
  induction fuel with
  | zero => intro k b h; simp [waitWhileGo] at h
  | succ n ih =>
    intro k b h
    rw [waitWhileGo] at h
    by_cases hc : clock k < deadline
    · rw [if_pos hc] at h
      cases hspi : spi k with
      | fail c =>
        simp only [hspi, Option.some.injEq, Prod.mk.injEq] at h
        exact absurd h.1 (hclean k c hspi)
      | ok byte =>
        simp only [hspi] at h
        by_cases hp : pred byte
        · rw [if_pos hp] at h
          exact ih (k + 1) b h
        · rw [if_neg hp] at h
          simp only [Option.some.injEq, Prod.mk.injEq] at h
          exact absurd h.1 (by decide)
    · exact ⟨k, Nat.le_of_not_lt hc⟩

/-- If every SPI read yields a byte satisfying the predicate and the clock
reaches the deadline by reading N, the loop answers ETIMEDOUT given enough
fuel. -/
theorem waitWhileGo_timeout_complete (clock : Nat → Nat) (spi : Nat → SpiByteResult)
    (pred : Nat → Bool) (deadline N : Nat)
    (hmono : Monotone clock)
    (hbytes : ∀ k, ∃ b, spi k = SpiByteResult.ok b ∧ pred b = true)
    (hN : deadline ≤ clock N) :
    ∀ fuel k, k ≤ N → N + 1 ≤ k + fuel →
      waitWhileGo clock spi pred deadline fuel k = some ( ETIMEDOUT, 0) := by
  intro fuel
  induction fuel with
  | zero => intro k hk hf; omega
  | succ n ih =>
    intro k hk hf
    rw [waitWhileGo]
    by_cases hc : clock k < deadline
    · rw [if_pos hc]
      have hkN : k < N := by
        rcases Nat.lt_or_ge k N with h | h
        · exact h
        · exact absurd (Nat.lt_of_lt_of_le hc hN) (Nat.not_lt.mpr (hmono h))
      obtain ⟨b, hspi, hp⟩ := hbytes k
      simp only [hspi, hp, if_true]
      exact ih (k + 1) hkN (by omega)
    · rw [if_neg hc]

/-- If the K-th byte falsifies the predicate, all earlier bytes satisfy it and
all clock readings up to K stay below the deadline, the loop answers success
with that byte. -/
theorem waitWhileGo_success (clock : Nat → Nat) (spi : Nat → SpiByteResult)
    (pred : Nat → Bool) (deadline K : Nat) (b : Nat)
    (hbefore : ∀ j, 1 ≤ j → j < K → ∃ bj, spi j = SpiByteResult.ok bj ∧ pred bj = true)
    (hK : spi K = SpiByteResult.ok b) (hKp : pred b = false)
    (hclock : ∀ j, 1 ≤ j → j ≤ K → clock j < deadline) :
    ∀ fuel k, 1 ≤ k → k ≤ K → K + 1 ≤ k + fuel →
      waitWhileGo clock spi pred deadline fuel k = some (0, b) := by
  intro fuel
  induction fuel with
  | zero => intro k h1 hk hf; omega
  | succ n ih =>
    intro k h1 hk hf
    rw [waitWhileGo, if_pos (hclock k h1 hk)]
    rcases Nat.lt_or_ge k K with hlt | hge
    · obtain ⟨bj, hspi, hp⟩ := hbefore k h1 hlt
      simp only [hspi, hp, if_true]
      exact ih (k + 1) (by omega) hlt (by omega)
    · have hkK : k = K := Nat.le_antisymm hk hge
      subst hkK
      simp [hK, hKp]

/-- C1: a time-bounded wait (waitWhile, and waitWhileBusy built on it) on a
condition that never becomes false returns ETIMEDOUT, and it returns
ETIMEDOUT only when some clock reading has reached the deadline, i.e. at or
after the requested duration has elapsed since the wait began, never before;
if the awaited byte falsifies the predicate before the deadline, the wait
instead returns success (0) together with that byte. -/
theorem waitWhile_timeout_correct (clock : Nat → Nat) (spi : Nat → SpiByteResult)
    (d : Nat) (pred : Nat → Bool)
    (hmono : Monotone clock)
    (hclean : ∀ k c, spi k = SpiByteResult.fail c → c ≠ ETIMEDOUT) :
    (∀ fuel b, waitWhile clock spi d pred fuel = some ( ETIMEDOUT, b) →
      ∃ s, clock 0 + d ≤ clock s) ∧
    (∀ N fuel, (∀ k, ∃ b, spi k = SpiByteResult.ok b ∧ pred b = true) →
      1 ≤ N → clock 0 + d ≤ clock N → N ≤ fuel →
      waitWhile clock spi d pred fuel = some ( ETIMEDOUT, 0)) ∧
    (∀ K b fuel, (∀ j, 1 ≤ j → j < K → ∃ bj, spi j = SpiByteResult.ok bj ∧ pred bj = true) →
      spi K = SpiByteResult.ok b → pred b = false →
      (∀ j, 1 ≤ j → j ≤ K → clock j < clock 0 + d) →
      1 ≤ K → K ≤ fuel →
      waitWhile clock spi d pred fuel = some (0, b)) ∧
    (∀ N fuel, (∀ k, ∃ b, spi k = SpiByteResult.ok b ∧ b ≠ 0xff) →
      1 ≤ N → clock 0 + d ≤ clock N → N ≤ fuel →
      waitWhileBusy clock spi d fuel = some ETIMEDOUT) := by
  refine ⟨?_, ?_, ?_, ?_⟩
  · intro fuel b h
    exact waitWhileGo_timeout_sound clock spi pred (clock 0 + d) hclean fuel 1 b h
  · intro N fuel hbytes hN1 hN hfuel
    exact waitWhileGo_timeout_complete clock spi pred (clock 0 + d) N hmono hbytes hN
      fuel 1 hN1 (by omega)
  · intro K b fuel hbefore hK hKp hclock hK1 hfuel
    exact waitWhileGo_success clock spi pred (clock 0 + d) K b hbefore hK hKp hclock
      fuel 1 (by omega) hK1 (by omega)
  · intro N fuel hbytes hN1 hN hfuel
    have hb : ∀ k, ∃ b, spi k = SpiByteResult.ok b ∧ (fun byte => byte != 0xff) b = true := by
      intro k
      obtain ⟨b, hs, hne⟩ := hbytes k
      exact ⟨b, hs, by simpa using hne⟩
    have h := waitWhileGo_timeout_complete clock spi (fun byte => byte != 0xff)
      (clock 0 + d) N hmono hb hN fuel 1 hN1 (by omega)
    unfold waitWhileBusy waitWhile
    rw [h]
    rfl

/-- Witness for C1 on a concrete clock, SPI stream, duration and fuel: the
busy byte 0x00 never falsifies the predicate, so the wait times out. -/
theorem waitWhile_timeout_correct_witness :
    waitWhile (fun n => n) (fun _ => SpiByteResult.ok 0) 3 (fun _ => true) 10 =
      some ( ETIMEDOUT, 0) :=
  (waitWhile_timeout_correct (fun n => n) (fun _ => SpiByteResult.ok 0) 3 (fun _ => true)
    (fun _ _ h => h) (fun _ _ h => by cases h)).2.1 3 10
    (fun _ => ⟨0, rfl, rfl⟩) (by omega) (by omega) (by omega)

/-! ## extractBits (SpiSdMmcCard.cpp)

The C++ function walks the bytes of the range from `begin = index / 8` up to
`end = (index + size + 7) / 8`, indexing from the END of the range
(`range.rbegin()[i]`), shifts each byte left by `(i - begin) * 8 - offset`
(right when that is negative) into a uint32 accumulator, and finally masks
with `(1u << size) - 1`.  uint32 arithmetic is modelled by explicit `% 2 ^ 32`
on every left shift; the mask is modelled as `(2 ^ size - 1) % 2 ^ 32`, which
agrees with the C expression for every size up to 31 and realizes the
modulo-2^32 shift reading for size = 32 (where the C shift amount equals the
width).  Bytes are Nat below 256; out-of-range accesses, excluded by the
assertion `end <= range.size()`, read 0. -/

/-- Little-endian value of a byte list: head is the least significant byte. -/
def leBytesVal : List Nat → Nat
  | [] => 0
  | b :: rest => b + 256 * leBytesVal rest

/-- Value of the byte range as the CSD numbers it: bit 0 is the LSB of the
last element. -/
def beBytesVal (range : List Nat) : Nat :=
  leBytesVal range.reverse

/-- Contribution of loop iteration `k` of extractBits: the byte
`range.rbegin()[begin + k]` shifted by `8 * k - offset` (right shift when
negative), in uint32 arithmetic. -/
def ebContrib (rev : List Nat) (bIdx offset k : Nat) : Nat :=
  let byte := rev.getD (bIdx + k) 0
  if offset ≤ 8 * k then byte <<< (8 * k - offset) % 2 ^ 32
  else byte >>> (offset - 8 * k)

/-- The accumulator of extractBits after `k` loop iterations. -/
def ebLoop (rev : List Nat) (bIdx offset : Nat) : Nat → Nat
  | 0 => 0
  | k + 1 => ebLoop rev bIdx offset k ||| ebContrib rev bIdx offset k

/-- extractBits from SpiSdMmcCard.cpp. -/
def extractBits (range : List Nat) (index size : Nat) : Nat :=
  let divider := 8
  let bIdx := index / divider
  let eIdx := (index + size + divider - 1) / divider
  let offset := index % divider
  let value := ebLoop range.reverse bIdx offset (eIdx - bIdx)
  value &&& (2 ^ size - 1) % 2 ^ 32

/-- The value the claim says extractBits returns: the size-bit field of the
range starting at bit `index`, bit 0 being the LSB of the last element. -/
def bitField (range : List Nat) (index size : Nat) : Nat :=
  beBytesVal range / 2 ^ index % 2 ^ size

/-! ### Byte-list value lemmas -/

theorem leBytesVal_append (xs ys : List Nat) :
    leBytesVal (xs ++ ys) = leBytesVal xs + 256 ^ xs.length * leBytesVal ys := by
  induction xs with
  | nil => simp [leBytesVal]
  | cons b rest ih =>
    show b + 256 * leBytesVal (rest ++ ys) =
      b + 256 * leBytesVal rest + 256 ^ (rest.length + 1) * leBytesVal ys
    rw [ih]
    ring

theorem leBytesVal_lt (xs : List Nat) (h : ∀ x ∈ xs, x < 256) :
    leBytesVal xs < 256 ^ xs.length := by
  induction xs with
  | nil => simp [leBytesVal]
  | cons b rest ih =>
    simp only [leBytesVal, List.length_cons, pow_succ]
    have hb : b < 256 := h b (List.mem_cons_self b rest)
    have hr : leBytesVal rest < 256 ^ rest.length :=
      ih fun x hx => h x (List.mem_cons_of_mem b hx)
    calc b + 256 * leBytesVal rest < 256 + 256 * leBytesVal rest := by omega
    _ = 256 * (leBytesVal rest + 1) := by ring
    _ ≤ 256 * 256 ^ rest.length := by
        exact Nat.mul_le_mul_left 256 hr
    _ = 256 ^ rest.length * 256 := by ring

theorem leBytesVal_take_drop (xs : List Nat) (k : Nat) :
    leBytesVal xs = leBytesVal (xs.take k) + 256 ^ (xs.take k).length * leBytesVal (xs.drop k) := by
  conv_lhs => rw [← List.take_append_drop k xs]
  exact leBytesVal_append (xs.take k) (xs.drop k)

/-! ### uint32 bit arithmetic helpers -/

theorem pow256 (k : Nat) : (256 : Nat) ^ k = 2 ^ (8 * k) := by
  rw [show (256 : Nat) = 2 ^ 8 by norm_num, ← pow_mul]

theorem mod_two_pow_lor (x y m : Nat) :
    (x ||| y) % 2 ^ m = x % 2 ^ m ||| y % 2 ^ m := by
  apply Nat.eq_of_testBit_eq
  intro j
  simp only [Nat.testBit_mod_two_pow, Nat.testBit_or]
  by_cases h : j < m <;> simp [h]

/-- The extractBits accumulator after k iterations equals the value of the
first k bytes (counted from rbegin()[begin]) shifted right by the bit offset,
reduced to 32 bits. -/
theorem ebLoop_eq (rev : List Nat) (bIdx offset : Nat)
    (hbytes : ∀ x ∈ rev, x < 256) (hoff : offset < 8) :
    ∀ k, ebLoop rev bIdx offset k =
      leBytesVal ((rev.drop bIdx).take k) / 2 ^ offset % 2 ^ 32 := by
  intro k
  induction k with
  | zero => simp [ebLoop, leBytesVal]
  | succ k ih =>
    rw [ebLoop, ih]
    by_cases hk : k < (rev.drop bIdx).length
    · have hlen : bIdx + k < rev.length := by
        have := List.length_drop bIdx rev
        omega
      have hgetD : rev.getD (bIdx + k) 0 = rev.get ⟨bIdx + k, hlen⟩ := by
        simp [List.getD_eq_getElem?_getD, List.getElem?_eq_getElem hlen]
      have htake : (rev.drop bIdx).take (k + 1) =
          (rev.drop bIdx).take k ++ [rev.get ⟨bIdx + k, hlen⟩] := by
        rw [List.take_succ, List.getElem?_eq_getElem hk]
        simp [List.getElem_drop]
      have hlentake : ((rev.drop bIdx).take k).length = k := by
        simp [List.length_take]
        omega
      have hAlt : leBytesVal ((rev.drop bIdx).take k) < 2 ^ (8 * k) := by
        have h1 := leBytesVal_lt ((rev.drop bIdx).take k)
          (fun x hx => hbytes x (List.drop_subset bIdx rev (List.take_subset k _ hx)))
        rw [hlentake] at h1
        calc leBytesVal ((rev.drop bIdx).take k) < 256 ^ k := h1
        _ = 2 ^ (8 * k) := pow256 k
      set A := leBytesVal ((rev.drop bIdx).take k) with hA
      set b := rev.get ⟨bIdx + k, hlen⟩ with hb
      have hbval : b < 256 := hbytes b (List.get_mem rev (bIdx + k) hlen)
      have hval : leBytesVal ((rev.drop bIdx).take (k + 1)) = A + 2 ^ (8 * k) * b := by
        rw [htake, leBytesVal_append, hlentake]
        simp [leBytesVal, pow256]
      rw [hval]
      unfold ebContrib
      rw [hgetD]
      by_cases hok : offset ≤ 8 * k
      · rw [if_pos hok]
        have hsplit : A + 2 ^ (8 * k) * b = A + 2 ^ (8 * k - offset) * b * 2 ^ offset := by
          have : (2 : Nat) ^ (8 * k - offset) * 2 ^ offset = 2 ^ (8 * k) := by
            rw [← pow_add, Nat.sub_add_cancel hok]
          rw [← this]
          ring
        rw [hsplit, Nat.add_mul_div_right _ _ (Nat.pos_pow_of_pos offset (by omega))]
        have hAdivlt : A / 2 ^ offset < 2 ^ (8 * k - offset) := by
          rw [Nat.div_lt_iff_lt_mul (Nat.pos_pow_of_pos offset (by omega)), ← pow_add,
            Nat.sub_add_cancel hok]
          exact hAlt
        rw [Nat.add_comm (A / 2 ^ offset), Nat.mul_add_lt_is_or hAdivlt, mod_two_pow_lor,
          Nat.lor_comm, Nat.shiftLeft_eq, Nat.mul_comm b (2 ^ (8 * k - offset))]
      · rw [if_neg hok]
        have hk0 : k = 0 := by omega
        subst hk0
        simp only [List.take_zero, leBytesVal] at hA
        rw [hA]
        simp only [Nat.mul_zero, pow_zero, Nat.one_mul, Nat.zero_add, Nat.zero_div,
          Nat.zero_mod, Nat.zero_or, Nat.shiftRight_eq_div_pow, Nat.mul_zero,
          Nat.sub_zero]
        have : b / 2 ^ offset < 2 ^ 32 := by
          calc b / 2 ^ offset ≤ b := Nat.div_le_self b _
          _ < 256 := hbval
          _ < 2 ^ 32 := by norm_num
        rw [Nat.mod_eq_of_lt this]
    · have hlen2 : rev.length ≤ bIdx + k := by
        have := List.length_drop bIdx rev
        omega
      have htake : (rev.drop bIdx).take (k + 1) = (rev.drop bIdx).take k := by
        rw [List.take_of_length_le (by omega), List.take_of_length_le (by omega)]
      have hgetD : rev.getD (bIdx + k) 0 = 0 :=
        List.getD_eq_default rev 0 hlen2
      rw [htake]
      unfold ebContrib
      rw [hgetD]
      by_cases hok : offset ≤ 8 * k
      · rw [if_pos hok]
        simp
      · rw [if_neg hok]
        simp

theorem extractBits_unfold (range : List Nat) (index size : Nat) :
    extractBits range index size =
      ebLoop range.reverse (index / 8) (index % 8) ((index + size + 8 - 1) / 8 - index / 8)
        &&& (2 ^ size - 1) % 2 ^ 32 := rfl

/-- C10: under the asserted preconditions (at most 32 bits, all accessed
bytes inside the range), extractBits returns exactly the size-bit field of
the range starting at the given bit index (bit 0 being the LSB of the last
element), and in particular a value strictly below 2 ^ size. -/
theorem extractBits_correct (range : List Nat) (index size : Nat)
    (hbytes : ∀ x ∈ range, x < 256) (hsize : size ≤ 32)
    (hend : (index + size + 8 - 1) / 8 ≤ range.length) :
    extractBits range index size = bitField range index size ∧
    extractBits range index size < 2 ^ size := by
  have key : extractBits range index size = bitField range index size := by
    rw [extractBits_unfold]
    unfold bitField beBytesVal
    set rev := range.reverse with hrev
    have hrevbytes : ∀ x ∈ rev, x < 256 := fun x hx => hbytes x (List.mem_reverse.mp hx)
    set bIdx := index / 8 with hbIdx
    set eIdx := (index + size + 8 - 1) / 8 with heIdx
    set offset := index % 8 with hoffset
    have hoff : offset < 8 := Nat.mod_lt index (by norm_num)
    have hlenrev : rev.length = range.length := List.length_reverse range
    have hbe : bIdx ≤ eIdx := Nat.div_le_div_right (by omega)
    have hidx : 8 * bIdx + offset = index := Nat.div_add_mod index 8
    have heK : index + size ≤ 8 * eIdx := by
      have h1 := Nat.div_add_mod (index + size + 8 - 1) 8
      have h2 : (index + size + 8 - 1) % 8 < 8 := Nat.mod_lt _ (by norm_num)
      omega
    have heIdxlen : eIdx ≤ rev.length := by omega
    rw [ebLoop_eq rev bIdx offset hrevbytes hoff]
    have hmask : (2 ^ size - 1) % 2 ^ 32 = 2 ^ size - 1 := by
      have h2 : (2 : Nat) ^ size ≤ 2 ^ 32 := Nat.pow_le_pow_right (by norm_num) hsize
      exact Nat.mod_eq_of_lt (by omega)
    rw [hmask, Nat.and_pow_two_sub_one_eq_mod,
      Nat.mod_mod_of_dvd _ (pow_dvd_pow 2 hsize)]
    set K := eIdx - bIdx with hK
    set L2 := rev.drop bIdx with hL2
    have hL2len : L2.length = rev.length - bIdx := List.length_drop bIdx rev
    have hKlen : K ≤ L2.length := by omega
    set mid := leBytesVal (L2.take K) with hmid
    set high := leBytesVal (L2.drop K) with hhigh
    set rest := leBytesVal L2 with hrest
    set low := leBytesVal (rev.take bIdx) with hlow
    have hlowlt : low < 2 ^ (8 * bIdx) := by
      have h1 := leBytesVal_lt (rev.take bIdx)
        (fun x hx => hrevbytes x (List.take_subset bIdx rev hx))
      have h2 : (rev.take bIdx).length = bIdx := by
        rw [List.length_take]
        omega
      rw [h2, pow256] at h1
      exact h1
    have hsplit1 : leBytesVal rev = low + 2 ^ (8 * bIdx) * rest := by
      have h1 := leBytesVal_take_drop rev bIdx
      have h2 : (rev.take bIdx).length = bIdx := by
        rw [List.length_take]
        omega
      rw [h2, pow256] at h1
      exact h1
    have hdiv1 : leBytesVal rev / 2 ^ index = rest / 2 ^ offset := by
      rw [hsplit1, ← hidx, pow_add, ← Nat.div_div_eq_div_mul,
        Nat.add_mul_div_left _ _ (Nat.pos_pow_of_pos (8 * bIdx) (by omega)),
        Nat.div_eq_of_lt hlowlt, Nat.zero_add]
    have hsplit2 : rest = mid + 2 ^ (8 * K) * high := by
      have h1 := leBytesVal_take_drop L2 K
      have h2 : (L2.take K).length = K := by
        rw [List.length_take]
        omega
      rw [h2, pow256] at h1
      exact h1
    have hoffK : offset + size ≤ 8 * K := by omega
    have hdiv2 : rest / 2 ^ offset = mid / 2 ^ offset + 2 ^ (8 * K - offset) * high := by
      have hfac : (2 : Nat) ^ (8 * K) * high = 2 ^ (8 * K - offset) * high * 2 ^ offset := by
        have h1 : (2 : Nat) ^ (8 * K - offset) * 2 ^ offset = 2 ^ (8 * K) := by
          rw [← pow_add]
          congr 1
          omega
        rw [← h1]
        ring
      rw [hsplit2, hfac, Nat.add_mul_div_right _ _ (Nat.pos_pow_of_pos offset (by omega))]
    rw [hdiv1, hdiv2]
    have hfac2 : (2 : Nat) ^ (8 * K - offset) * high = 2 ^ size * (2 ^ (8 * K - offset - size) * high) := by
      rw [← mul_assoc, ← pow_add]
      congr 2
      omega
    rw [hfac2, Nat.add_mul_mod_self_left]
  refine ⟨key, ?_⟩
  rw [key]
  unfold bitField
  exact Nat.mod_lt _ (Nat.pos_pow_of_pos size (by omega))

/-- Witness for C10 on a concrete range: extracting the 12 bits starting at
bit 4 of [0xAB, 0xCD, 0xEF] yields 0xBCD. -/
theorem extractBits_correct_witness :
    extractBits [0xab, 0xcd, 0xef] 4 12 = bitField [0xab, 0xcd, 0xef] 4 12 ∧
    extractBits [0xab, 0xcd, 0xef] 4 12 < 2 ^ 12 :=
  extractBits_correct [0xab, 0xcd, 0xef] 4 12 (by decide) (by decide) (by decide)

/-! ## The SpiSdMmcCard block-device operations (SpiSdMmcCard.cpp)

The driver state is the set of member fields the operations touch.  The SPI
collaborators (SpiMasterProxy::configure, the command + R1/R3 exchanges
realized by writeCmdReadR1 / writeCmdReadR3, writeDataBlock, readDataBlock,
the raw stop-transfer transaction, waitWhileBusy, and the underlying
SpiDevice) are an oracle `SpiEnv`: each interaction consumes the oracle entry
indexed by the number of interactions performed so far, and is recorded in an
event trace, so that theorems can speak about which commands an operation
issued. -/

/-- Card type (SpiSdMmcCard::Type); `unknown` means not initialized. -/
inductive CardType where
  | unknown
  | mmc
  | sdVersion1
  | sdVersion2
deriving DecidableEq

/-- The member fields of SpiSdMmcCard used by the block-device operations. -/
structure Card where
  type : CardType
  blockAddressing : Bool
  blocksCount : Nat
  readTimeoutMs : Nat
  writeTimeoutMs : Nat
deriving DecidableEq

/-- Block size of the card, bytes (SpiSdMmcCard::blockSize). -/
def blockSize : Nat := 512

/-- Control token startBlockToken (0b11111110). -/
def startBlockToken : Nat := 0xfe

/-- Control token startBlockWriteToken for CMD25 (0b11111100). -/
def startBlockWriteToken : Nat := 0xfc

/-- One interaction of the driver with the SPI bus or the underlying device. -/
inductive SpiEvent where
  | configure
  | command (cmd : Nat) (arg : Nat)
  | dataWrite (token : Nat)
  | dataRead
  | rawWrite
  | busyWait
deriving DecidableEq

/-- Oracle for the SPI collaborators: entry n answers the n-th interaction. -/
structure SpiEnv where
  configureRet : Nat → Int
  commandRet : Nat → Int × Nat
  commandR3Ret : Nat → Int × Nat × Nat
  dataWriteRet : Nat → Int × Nat
  dataReadRet : Nat → Int × Nat
  dataReadBytes : Nat → List Nat
  rawRet : Nat → Int
  busyRet : Nat → Int
  deviceLockRet : Int
  deviceUnlockRet : Int
  deviceOpenRet : Int
  deviceCloseRet : Int
  openedBefore : Bool
  openedAfterClose : Bool

/-- SpiMasterProxy::configure, as seen by the driver. -/
def envConfigure (env : SpiEnv) (tr : List SpiEvent) : Int × List SpiEvent :=
  (env.configureRet tr.length, tr ++ [SpiEvent.configure])

/-- writeCmdReadR1: issue a command, read the R1 response. -/
def envCmd (env : SpiEnv) (tr : List SpiEvent) (cmd arg : Nat) : (Int × Nat) × List SpiEvent :=
  (env.commandRet tr.length, tr ++ [SpiEvent.command cmd arg])

/-- writeCmdReadR3: issue a command, read the R3 response (code, R1, OCR). -/
def envCmdR3 (env : SpiEnv) (tr : List SpiEvent) (cmd arg : Nat) :
    (Int × Nat × Nat) × List SpiEvent :=
  (env.commandR3Ret tr.length, tr ++ [SpiEvent.command cmd arg])

/-- writeDataBlock: (code, bytes written). -/
def envDataWrite (env : SpiEnv) (tr : List SpiEvent) (token : Nat) :
    (Int × Nat) × List SpiEvent :=
  (env.dataWriteRet tr.length, tr ++ [SpiEvent.dataWrite token])

/-- readDataBlock: (code, bytes read) plus the data itself. -/
def envDataRead (env : SpiEnv) (tr : List SpiEvent) :
    (Int × Nat) × List Nat × List SpiEvent :=
  (env.dataReadRet tr.length, env.dataReadBytes tr.length, tr ++ [SpiEvent.dataRead])

/-- A raw executeTransaction (the stop-transfer write). -/
def envRaw (env : SpiEnv) (tr : List SpiEvent) : Int × List SpiEvent :=
  (env.rawRet tr.length, tr ++ [SpiEvent.rawWrite])

/-- waitWhileBusy, as seen by the callers inside the driver. -/
def envBusy (env : SpiEnv) (tr : List SpiEvent) : Int × List SpiEvent :=
  (env.busyRet tr.length, tr ++ [SpiEvent.busyWait])

/-- The ERASE (CMD38) step of SpiSdMmcCard::erase: executeCmd38 is the
command followed by waitWhileBusy; a busy-wait failure wins over a bad R1. -/
def eraseCmd38Step (env : SpiEnv) (tr : List SpiEvent) : Int × List SpiEvent :=
  let r3 := envCmd env tr 38 0
  if r3.1.1 ≠ 0 then (r3.1.1, r3.2)
  else
    let rb := envBusy env r3.2
    if rb.1 ≠ 0 then (rb.1, rb.2)
    else if r3.1.2 ≠ 0 then ( EIO, rb.2)
    else (0, rb.2)

/-- The ERASE_WR_BLK_END_ADDR (CMD33) step of SpiSdMmcCard::erase. -/
def eraseCmd33Step (env : SpiEnv) (tr : List SpiEvent) (a2 : Nat) : Int × List SpiEvent :=
  let r2 := envCmd env tr 33 a2
  if r2.1.1 ≠ 0 then (r2.1.1, r2.2)
  else if r2.1.2 ≠ 0 then ( EIO, r2.2)
  else eraseCmd38Step env r2.2

/-- The ERASE_WR_BLK_START_ADDR (CMD32) step of SpiSdMmcCard::erase. -/
def eraseCmd32Step (env : SpiEnv) (tr : List SpiEvent) (a1 a2 : Nat) : Int × List SpiEvent :=
  let r1 := envCmd env tr 32 a1
  if r1.1.1 ≠ 0 then (r1.1.1, r1.2)
  else if r1.1.2 ≠ 0 then ( EIO, r1.2)
  else eraseCmd33Step env r1.2 a2

/-- SpiSdMmcCard::erase.  Returns the error code and the interaction trace. -/
def eraseCard (card : Card) (env : SpiEnv) (address size : Nat) : Int × List SpiEvent :=
  if card.type = CardType.unknown then ( EBADF, [])
  else if size = 0 then (0, [])
  else if address % blockSize ≠ 0 ∨ size % blockSize ≠ 0 then ( EINVAL, [])
  else
    let firstBlock := address / blockSize
    let blocks := size / blockSize
    if card.blocksCount < firstBlock + blocks then ( ENOSPC, [])
    else
      let c0 := envConfigure env []
      if c0.1 ≠ 0 then (c0.1, c0.2)
      else
        let a1 := (if card.blockAddressing then firstBlock else address) % 2 ^ 32
        let a2 := (if card.blockAddressing then firstBlock + blocks - 1
                   else address + size - blockSize) % 2 ^ 32
        eraseCmd32Step env c0.2 a1 a2

/-- The per-block loop of SpiSdMmcCard::program: write each data block,
accumulating the bytes written even of a failed block, and stop at the first
failure. -/
def progLoop (env : SpiEnv) (token : Nat) :
    Nat → List SpiEvent → Nat → Option Int × Nat × List SpiEvent
  | 0, tr, acc => (none, acc, tr)
  | b + 1, tr, acc =>
    let r := envDataWrite env tr token
    let acc2 := acc + r.1.2
    if r.1.1 ≠ 0 then (some r.1.1, acc2, r.2)
    else progLoop env token b r.2 acc2

/-- The stop-transfer tail of SpiSdMmcCard::program for a multi-block write:
send the stop-tran token, then wait while the card is busy. -/
def programStopStep (env : SpiEnv) (tr : List SpiEvent) (bw : Nat) :
    (Int × Nat) × List SpiEvent :=
  let rr := envRaw env tr
  if rr.1 ≠ 0 then ((rr.1, bw), rr.2)
  else
    let rb := envBusy env rr.2
    if rb.1 ≠ 0 then ((rb.1, bw), rb.2)
    else ((0, bw), rb.2)

/-- The data phase of SpiSdMmcCard::program: write all blocks, then the
stop-transfer tail when more than one block was requested. -/
def programBlocksStep (env : SpiEnv) (token blocks : Nat) (tr : List SpiEvent) :
    (Int × Nat) × List SpiEvent :=
  match progLoop env token blocks tr 0 with
  | (some e, bw, tr2) => ((e, bw), tr2)
  | (none, bw, tr2) =>
    if blocks ≠ 1 then programStopStep env tr2 bw
    else ((0, bw), tr2)

/-- SpiSdMmcCard::program.  The buffer is `none` for a null pointer.  Returns
((error code, bytes written), interaction trace). -/
def programCard (card : Card) (env : SpiEnv) (address : Nat) (buffer : Option Nat)
    (size : Nat) : (Int × Nat) × List SpiEvent :=
  if card.type = CardType.unknown then (( EBADF, 0), [])
  else if size = 0 then ((0, 0), [])
  else if buffer = none ∨ address % blockSize ≠ 0 ∨ size % blockSize ≠ 0 then
    (( EINVAL, 0), [])
  else
    let firstBlock := address / blockSize
    let blocks := size / blockSize
    if card.blocksCount < firstBlock + blocks then (( ENOSPC, 0), [])
    else
      let c0 := envConfigure env []
      if c0.1 ≠ 0 then ((c0.1, 0), c0.2)
      else
        let a1 := (if card.blockAddressing then firstBlock else address) % 2 ^ 32
        let r1 := envCmd env c0.2 (if blocks = 1 then 24 else 25) a1
        if r1.1.1 ≠ 0 then ((r1.1.1, 0), r1.2)
        else if r1.1.2 ≠ 0 then (( EIO, 0), r1.2)
        else
          let token := if blocks = 1 then startBlockToken else startBlockWriteToken
          programBlocksStep env token blocks r1.2

/-- The per-block loop of SpiSdMmcCard::read: read each data block,
accumulating the bytes read even of a failed block, and stop at the first
failure. -/
def readLoop (env : SpiEnv) :
    Nat → List SpiEvent → Nat → Option Int × Nat × List SpiEvent
  | 0, tr, acc => (none, acc, tr)
  | b + 1, tr, acc =>
    let r := envDataRead env tr
    let acc2 := acc + r.1.2
    if r.1.1 ≠ 0 then (some r.1.1, acc2, r.2.2)
    else readLoop env b r.2.2 acc2

/-- The stop-transmission tail of SpiSdMmcCard::read for a multi-block read:
executeCmd12 is CMD12 followed by waitWhileBusy; a busy-wait failure wins
over a bad R1. -/
def readStopStep (env : SpiEnv) (tr : List SpiEvent) (br : Nat) :
    (Int × Nat) × List SpiEvent :=
  let r12 := envCmd env tr 12 0
  if r12.1.1 ≠ 0 then ((r12.1.1, br), r12.2)
  else
    let rb := envBusy env r12.2
    if rb.1 ≠ 0 then ((rb.1, br), rb.2)
    else if r12.1.2 ≠ 0 then (( EIO, br), rb.2)
    else ((0, br), rb.2)

/-- The data phase of SpiSdMmcCard::read: read all blocks, then the
stop-transmission tail when more than one block was requested. -/
def readBlocksStep (env : SpiEnv) (blocks : Nat) (tr : List SpiEvent) :
    (Int × Nat) × List SpiEvent :=
  match readLoop env blocks tr 0 with
  | (some e, br, tr2) => ((e, br), tr2)
  | (none, br, tr2) =>
    if blocks ≠ 1 then readStopStep env tr2 br
    else ((0, br), tr2)

/-- SpiSdMmcCard::read.  The buffer is `none` for a null pointer.  Returns
((error code, bytes read), interaction trace). -/
def readCard (card : Card) (env : SpiEnv) (address : Nat) (buffer : Option Nat)
    (size : Nat) : (Int × Nat) × List SpiEvent :=
  if card.type = CardType.unknown then (( EBADF, 0), [])
  else if size = 0 then ((0, 0), [])
  else if buffer = none ∨ address % blockSize ≠ 0 ∨ size % blockSize ≠ 0 then
    (( EINVAL, 0), [])
  else
    let firstBlock := address / blockSize
    let blocks := size / blockSize
    if card.blocksCount < firstBlock + blocks then (( ENOSPC, 0), [])
    else
      let c0 := envConfigure env []
      if c0.1 ≠ 0 then ((c0.1, 0), c0.2)
      else
        let a1 := (if card.blockAddressing then firstBlock else address) % 2 ^ 32
        let r1 := envCmd env c0.2 (if blocks = 1 then 17 else 18) a1
        if r1.1.1 ≠ 0 then ((r1.1.1, 0), r1.2)
        else if r1.1.2 ≠ 0 then (( EIO, 0), r1.2)
        else readBlocksStep env blocks r1.2

/-- SpiSdMmcCard::lock forwards to SpiDevice::lock. -/
def lockCard (env : SpiEnv) : Int :=
  env.deviceLockRet

/-- SpiSdMmcCard::unlock forwards to SpiDevice::unlock. -/
def unlockCard (env : SpiEnv) : Int :=
  env.deviceUnlockRet

/-- SpiSdMmcCard::synchronize returns 0. -/
def synchronizeCard : Int := 0

/-- SpiSdMmcCard::deinitialize: all fields back to their zero values. -/
def deinitCard (_ : Card) : Card :=
  ⟨CardType.unknown, false, 0, 0, 0⟩

/-- SpiSdMmcCard::close: close the SpiDevice; if this was the last opening,
reset the driver state. -/
def closeCard (card : Card) (env : SpiEnv) : Int × Card :=
  (env.deviceCloseRet, if env.openedAfterClose = false then deinitCard card else card)

/-! ### SpiSdMmcCard::initialize and open

The two card-identification polling loops (ACMD41 and CMD1) compute a
one-second deadline from TickClock::now and poll until the card leaves the
idle state or the deadline passes; `clock n` is the n-th TickClock::now
reading inside initialize, and the unbounded loops carry fuel. -/

/-- One second expressed in ticks of the tick clock. -/
def oneSecond : Nat := 1000

/-- The ACMD41 (SD_SEND_OP_COND) polling loop of SpiSdMmcCard::initialize.
Each round issues CMD55 then ACMD41 (HCS set iff the card was identified as
SD version 2).  Yields `some (some code, ...)` on early return from
initialize, `some (none, ...)` when the loop breaks, `none` when fuel runs
out; alongside the current card type, trace and clock counter. -/
def acmd41Loop (env : SpiEnv) (clock : Nat → Nat) (deadline : Nat) :
    Nat → List SpiEvent → Nat → CardType →
    Option (Option Int × CardType × List SpiEvent × Nat)
  | 0, _, _, _ => none
  | fuel + 1, tr, cIdx, ty =>
    let r55 := envCmd env tr 55 0
    if r55.1.1 ≠ 0 then some (some r55.1.1, ty, r55.2, cIdx)
    else if r55.1.2 ≠ 0 ∧ r55.1.2 ≠ 1 then some (some EIO, ty, r55.2, cIdx)
    else
      let r41 := envCmd env r55.2 41 (if ty = CardType.sdVersion2 then 2 ^ 30 else 0)
      if r41.1.1 ≠ 0 then some (some r41.1.1, ty, r41.2, cIdx)
      else if r41.1.2 = 0 then
        some (none, if ty = CardType.unknown then CardType.sdVersion1 else ty, r41.2, cIdx)
      else if r41.1.2 ≠ 1 then
        if ty = CardType.sdVersion2 then some (some EIO, ty, r41.2, cIdx)
        else some (none, ty, r41.2, cIdx)
      else if deadline ≤ clock cIdx then
        if ty = CardType.sdVersion2 then some (some ETIMEDOUT, ty, r41.2, cIdx + 1)
        else some (none, ty, r41.2, cIdx + 1)
      else acmd41Loop env clock deadline fuel r41.2 (cIdx + 1) ty

/-- The CMD1 (SEND_OP_COND) polling loop of SpiSdMmcCard::initialize, entered
when the card is still unidentified; breaking means the card is an MMC. -/
def cmd1Loop (env : SpiEnv) (clock : Nat → Nat) (deadline : Nat) :
    Nat → List SpiEvent → Nat → Option (Option Int × List SpiEvent × Nat)
  | 0, _, _ => none
  | fuel + 1, tr, cIdx =>
    let r := envCmd env tr 1 0
    if r.1.1 ≠ 0 then some (some r.1.1, r.2, cIdx)
    else if r.1.2 = 0 then some (none, r.2, cIdx)
    else if r.1.2 ≠ 1 then some (some EIO, r.2, cIdx)
    else if deadline ≤ clock cIdx then some (some ETIMEDOUT, r.2, cIdx + 1)
    else cmd1Loop env clock deadline fuel r.2 (cIdx + 1)

/-- CSD_STRUCTURE, as decodeCsd extracts it. -/
def decodeCsdStructure (csd : List Nat) : Nat :=
  extractBits csd 126 2

/-- C_SIZE of CSD version 2.0, as decodeCsd extracts it. -/
def decodeCsdV2CSize (csd : List Nat) : Nat :=
  extractBits csd 48 22

/-- The SEND_CSD step of SpiSdMmcCard::initialize: CMD9, read the 16 CSD
bytes, require CSD structure version 2 and compute the block count and the
timeouts from it. -/
def initCsdStep (card4 : Card) (env : SpiEnv) (tr : List SpiEvent) :
    Int × Card × List SpiEvent :=
  let r9 := envCmd env tr 9 0
  if r9.1.1 ≠ 0 then (r9.1.1, card4, r9.2)
  else if r9.1.2 ≠ 0 then ( EIO, card4, r9.2)
  else
    let rd := envDataRead env r9.2
    if rd.1.1 ≠ 0 then (rd.1.1, card4, rd.2.2)
    else
      let csd := rd.2.1
      if decodeCsdStructure csd ≠ 1 then ( EIO, card4, rd.2.2)
      else
        let blocksCount := (decodeCsdV2CSize csd + 1) * 512 * 1024 / blockSize
        let card5 := { card4 with
          blocksCount := blocksCount,
          readTimeoutMs := 100,
          writeTimeoutMs :=
            if blockSize * blocksCount ≤ 32 * 1024 * 1024 * 1024 then 250 else 500 }
        (0, card5, rd.2.2)

/-- The SET_BLOCKLEN step of SpiSdMmcCard::initialize: CMD16 with the block
size when the card uses byte addressing, then the CSD step. -/
def initBlocklenStep (card4 : Card) (env : SpiEnv) (tr : List SpiEvent) :
    Int × Card × List SpiEvent :=
  if card4.blockAddressing = false then
    let r16 := envCmd env tr 16 blockSize
    if r16.1.1 ≠ 0 then (r16.1.1, card4, r16.2)
    else if r16.1.2 ≠ 0 then ( EIO, card4, r16.2)
    else initCsdStep card4 env r16.2
  else initCsdStep card4 env tr

/-- The READ_OCR step of SpiSdMmcCard::initialize: for an SD version 2 card,
CMD58 decides between block and byte addressing (OCR bit 30); then the
block-length step. -/
def initOcrStep (card3 : Card) (env : SpiEnv) (tr : List SpiEvent) :
    Int × Card × List SpiEvent :=
  if card3.type = CardType.sdVersion2 then
    let r58 := envCmdR3 env tr 58 0
    if r58.1.1 ≠ 0 then (r58.1.1, card3, r58.2)
    else if r58.1.2.1 ≠ 0 then ( EIO, card3, r58.2)
    else initBlocklenStep
      { card3 with blockAddressing := r58.1.2.2 &&& 2 ^ 30 ≠ 0 } env r58.2
  else initBlocklenStep card3 env tr

/-- The CMD1 phase of SpiSdMmcCard::initialize: the CMD1 loop runs only when
the card is still unidentified after ACMD41. -/
def cmd1Phase (env : SpiEnv) (clock : Nat → Nat) (ty : CardType) (fuel : Nat)
    (tr : List SpiEvent) (cIdx : Nat) : Option (Option Int × List SpiEvent × Nat) :=
  if ty = CardType.unknown then
    cmd1Loop env clock (clock cIdx + oneSecond) fuel tr (cIdx + 1)
  else some (none, tr, cIdx)

/-- The reconfiguration step after card identification: raise the bus clock,
then the READ_OCR step. -/
def initReconfStep (card3 : Card) (env : SpiEnv) (tr : List SpiEvent) :
    Int × Card × List SpiEvent :=
  let c1 := envConfigure env tr
  if c1.1 ≠ 0 then (c1.1, card3, c1.2)
  else initOcrStep card3 env c1.2

/-- The identification phase of SpiSdMmcCard::initialize: the ACMD41 loop,
then the CMD1 phase for a still-unknown card, then the remaining steps. -/
def initIdStep (card1 : Card) (env : SpiEnv) (clock : Nat → Nat) (fuel : Nat)
    (tr : List SpiEvent) : Option (Int × Card × List SpiEvent) :=
  match acmd41Loop env clock (clock 0 + oneSecond) fuel tr 1 card1.type with
  | none => none
  | some (some c, ty2, tr2, _) => some (c, { card1 with type := ty2 }, tr2)
  | some (none, ty2, tr2, cIdx2) =>
    match cmd1Phase env clock ty2 fuel tr2 cIdx2 with
    | none => none
    | some (some c, tr3, _) => some (c, { card1 with type := ty2 }, tr3)
    | some (none, tr3, _) =>
      let ty3 := if ty2 = CardType.unknown then CardType.mmc else ty2
      some (initReconfStep { card1 with type := ty3 } env tr3)

/-- SpiSdMmcCard::initialize: card identification and configuration sequence.
`none` means one of the polling loops ran out of fuel. -/
def initCard (card : Card) (env : SpiEnv) (clock : Nat → Nat) (fuel : Nat) :
    Option (Int × Card × List SpiEvent) :=
  let c0 := envConfigure env []
  if c0.1 ≠ 0 then some (c0.1, card, c0.2)
  else
    let rw := envRaw env c0.2
    if rw.1 ≠ 0 then some (rw.1, card, rw.2)
    else
      let r0 := envCmd env rw.2 0 0
      if r0.1.1 ≠ 0 then some (r0.1.1, card, r0.2)
      else if r0.1.2 ≠ 1 then some ( EIO, card, r0.2)
      else
        let r8 := envCmdR3 env r0.2 8 0x1aa
        if r8.1.1 ≠ 0 then some (r8.1.1, card, r8.2)
        else if r8.1.2.1 = 1 ∧ r8.1.2.2 ≠ 0x1aa then some ( EIO, card, r8.2)
        else
          let card1 := if r8.1.2.1 = 1 then { card with type := CardType.sdVersion2 }
                       else card
          initIdStep card1 env clock fuel r8.2

/-- SpiSdMmcCard::open: open the SpiDevice; on the first opening run
initialize, closing again if it fails. -/
def openCard (card : Card) (env : SpiEnv) (clock : Nat → Nat) (fuel : Nat) :
    Option (Int × Card × List SpiEvent) :=
  if env.deviceOpenRet ≠ 0 then some (env.deviceOpenRet, card, [])
  else if env.openedBefore then some (0, card, [])
  else
    match initCard card env clock fuel with
    | none => none
    | some (c, card2, tr) =>
      if c ≠ 0 then
        some (c, if env.openedAfterClose = false then deinitCard card2 else card2, tr)
      else some (0, card2, tr)

/-! ### Concrete sample card and environment used by witnesses -/

/-- An environment whose every interaction succeeds with zeroed payloads. -/
def envZero : SpiEnv :=
  ⟨fun _ => 0, fun _ => (0, 0), fun _ => (0, 0, 0), fun _ => (0, 0), fun _ => (0, 0),
    fun _ => [], fun _ => 0, fun _ => 0, 0, 0, 0, 0, false, false⟩

/-- An opened card: SD version 2 with block addressing and 1024 blocks. -/
def cardOpened : Card :=
  ⟨CardType.sdVersion2, true, 1024, 100, 250⟩

/-- C4: read, program and erase on a device that is not opened (card type
still unknown) return EBADF with nothing transferred and an empty
interaction trace, so no command is issued and no bus configuration happens;
the card state is a read-only input of these operations. -/
theorem notOpened_ebadf (card : Card) (env : SpiEnv) (address size : Nat)
    (buffer : Option Nat) (h : card.type = CardType.unknown) :
    readCard card env address buffer size = (( EBADF, 0), []) ∧
    programCard card env address buffer size = (( EBADF, 0), []) ∧
    eraseCard card env address size = ( EBADF, []) := by
  unfold readCard programCard eraseCard
  rw [if_pos h, if_pos h, if_pos h]
  exact ⟨rfl, rfl, rfl⟩

/-- Witness for C4: a concrete fresh card with a misaligned address. -/
theorem notOpened_ebadf_witness :
    readCard ⟨CardType.unknown, false, 0, 0, 0⟩ envZero 1 none 512 = (( EBADF, 0), []) ∧
    programCard ⟨CardType.unknown, false, 0, 0, 0⟩ envZero 1 none 512 = (( EBADF, 0), []) ∧
    eraseCard ⟨CardType.unknown, false, 0, 0, 0⟩ envZero 1 512 = ( EBADF, []) :=
  notOpened_ebadf ⟨CardType.unknown, false, 0, 0, 0⟩ envZero 1 512 none rfl

/-- C9: on an opened device a zero-size read, program or erase returns
success immediately with 0 bytes transferred and an empty interaction trace,
even when the address is misaligned or the buffer is null, because the
zero-size early return precedes every argument-validity check. -/
theorem zeroSize_success (card : Card) (env : SpiEnv) (address : Nat)
    (buffer : Option Nat) (h : card.type ≠ CardType.unknown) :
    readCard card env address buffer 0 = ((0, 0), []) ∧
    programCard card env address buffer 0 = ((0, 0), []) ∧
    eraseCard card env address 0 = (0, []) := by
  unfold readCard programCard eraseCard
  rw [if_neg h, if_neg h, if_neg h]
  norm_num

/-- Witness for C9: opened card, misaligned address, null buffer, size 0. -/
theorem zeroSize_success_witness :
    readCard cardOpened envZero 1 none 0 = ((0, 0), []) ∧
    programCard cardOpened envZero 1 none 0 = ((0, 0), []) ∧
    eraseCard cardOpened envZero 1 0 = (0, []) :=
  zeroSize_success cardOpened envZero 1 none (by decide)

/-- C3 counterexample: on an opened device, erase with address 1 (not a
multiple of the 512-byte block size) and size 0 returns success 0, not
EINVAL, because the zero-size early return is checked first; so the claim as
stated fails at this input. -/
theorem erase_misaligned_zero_size_not_einval :
    1 % blockSize ≠ 0 ∧ eraseCard cardOpened envZero 1 0 = (0, []) ∧
    (0 : Int) ≠ EINVAL := by
  refine ⟨by decide, by decide, by decide⟩

/-- C3 amended: on an opened device and with nonzero size, a read, program
or erase whose address or size is not a multiple of the 512-byte block size
(or, for read and program, whose buffer is null) fails with EINVAL,
transfers no data and issues no command. -/
theorem invalidArgs_einval (card : Card) (env : SpiEnv) (address size : Nat)
    (buffer : Option Nat)
    (hOpen : card.type ≠ CardType.unknown) (hsz : size ≠ 0)
    (hbad : buffer = none ∨ address % blockSize ≠ 0 ∨ size % blockSize ≠ 0) :
    readCard card env address buffer size = (( EINVAL, 0), []) ∧
    programCard card env address buffer size = (( EINVAL, 0), []) ∧
    ((address % blockSize ≠ 0 ∨ size % blockSize ≠ 0) →
      eraseCard card env address size = ( EINVAL, [])) := by
  unfold readCard programCard eraseCard
  rw [if_neg hOpen, if_neg hOpen, if_neg hOpen, if_neg hsz, if_neg hsz, if_neg hsz,
    if_pos hbad, if_pos hbad]
  refine ⟨rfl, rfl, fun hbadE => ?_⟩
  rw [if_pos hbadE]

/-- Witness for the amended C3: misaligned address 1, nonzero size 512. -/
theorem invalidArgs_einval_witness :
    readCard cardOpened envZero 1 (some 0) 512 = (( EINVAL, 0), []) ∧
    programCard cardOpened envZero 1 (some 0) 512 = (( EINVAL, 0), []) ∧
    eraseCard cardOpened envZero 1 512 = ( EINVAL, []) := by
  have h := invalidArgs_einval cardOpened envZero 1 512 (some 0) (by decide) (by decide)
    (Or.inr (Or.inl (by decide)))
  exact ⟨h.1, h.2.1, h.2.2 (Or.inl (by decide))⟩

/-! ### C2: the closed set of result codes

An operation may only answer 0 (success), one of the driver error constants,
or a code produced by one of its collaborators; `EnvCode` is the set of codes
the environment can produce. -/

/-- Codes the environment (SPI master, SPI device) can return. -/
def EnvCode (env : SpiEnv) (c : Int) : Prop :=
  (∃ n, env.configureRet n = c) ∨ (∃ n, (env.commandRet n).1 = c) ∨
  (∃ n, (env.commandR3Ret n).1 = c) ∨ (∃ n, (env.dataWriteRet n).1 = c) ∨
  (∃ n, (env.dataReadRet n).1 = c) ∨ (∃ n, env.rawRet n = c) ∨
  (∃ n, env.busyRet n = c) ∨ env.deviceLockRet = c ∨ env.deviceUnlockRet = c ∨
  env.deviceOpenRet = c ∨ env.deviceCloseRet = c

/-- The closed set of codes of the block-device operations: success, the
driver error constants, or a collaborator code passed through unchanged. -/
def DriverCode (env : SpiEnv) (c : Int) : Prop :=
  c = 0 ∨ c = EBADF ∨ c = EINVAL ∨ c = ENOSPC ∨ c = EIO ∨ c = ETIMEDOUT ∨
  EnvCode env c

theorem driverCode_zero (env : SpiEnv) : DriverCode env 0 := Or.inl rfl

theorem driverCode_ebadf (env : SpiEnv) : DriverCode env EBADF :=
  Or.inr (Or.inl rfl)

theorem driverCode_einval (env : SpiEnv) : DriverCode env EINVAL :=
  Or.inr (Or.inr (Or.inl rfl))

theorem driverCode_enospc (env : SpiEnv) : DriverCode env ENOSPC :=
  Or.inr (Or.inr (Or.inr (Or.inl rfl)))

theorem driverCode_eio (env : SpiEnv) : DriverCode env EIO :=
  Or.inr (Or.inr (Or.inr (Or.inr (Or.inl rfl))))

theorem driverCode_etimedout (env : SpiEnv) : DriverCode env ETIMEDOUT :=
  Or.inr (Or.inr (Or.inr (Or.inr (Or.inr (Or.inl rfl)))))

theorem driverCode_env (env : SpiEnv) {c : Int} (h : EnvCode env c) : DriverCode env c :=
  Or.inr (Or.inr (Or.inr (Or.inr (Or.inr (Or.inr h)))))

theorem envCode_configure (env : SpiEnv) (n : Nat) : EnvCode env (env.configureRet n) :=
  Or.inl ⟨n, rfl⟩

theorem envCode_command (env : SpiEnv) (n : Nat) : EnvCode env (env.commandRet n).1 :=
  Or.inr (Or.inl ⟨n, rfl⟩)

theorem envCode_commandR3 (env : SpiEnv) (n : Nat) : EnvCode env (env.commandR3Ret n).1 :=
  Or.inr (Or.inr (Or.inl ⟨n, rfl⟩))

theorem envCode_dataWrite (env : SpiEnv) (n : Nat) : EnvCode env (env.dataWriteRet n).1 :=
  Or.inr (Or.inr (Or.inr (Or.inl ⟨n, rfl⟩)))

theorem envCode_dataRead (env : SpiEnv) (n : Nat) : EnvCode env (env.dataReadRet n).1 :=
  Or.inr (Or.inr (Or.inr (Or.inr (Or.inl ⟨n, rfl⟩))))

theorem envCode_raw (env : SpiEnv) (n : Nat) : EnvCode env (env.rawRet n) :=
  Or.inr (Or.inr (Or.inr (Or.inr (Or.inr (Or.inl ⟨n, rfl⟩)))))

theorem envCode_busy (env : SpiEnv) (n : Nat) : EnvCode env (env.busyRet n) :=
  Or.inr (Or.inr (Or.inr (Or.inr (Or.inr (Or.inr (Or.inl ⟨n, rfl⟩))))))

theorem envCode_lock (env : SpiEnv) : EnvCode env env.deviceLockRet :=
  Or.inr (Or.inr (Or.inr (Or.inr (Or.inr (Or.inr (Or.inr (Or.inl rfl)))))))

theorem envCode_unlock (env : SpiEnv) : EnvCode env env.deviceUnlockRet :=
  Or.inr (Or.inr (Or.inr (Or.inr (Or.inr (Or.inr (Or.inr (Or.inr (Or.inl rfl))))))))

theorem envCode_open (env : SpiEnv) : EnvCode env env.deviceOpenRet :=
  Or.inr (Or.inr (Or.inr (Or.inr (Or.inr (Or.inr (Or.inr (Or.inr (Or.inr
    (Or.inl rfl)))))))))

theorem envCode_close (env : SpiEnv) : EnvCode env env.deviceCloseRet :=
  Or.inr (Or.inr (Or.inr (Or.inr (Or.inr (Or.inr (Or.inr (Or.inr (Or.inr
    (Or.inr rfl)))))))))

/-! ### Closed-set lemmas for the loops and steps -/

theorem progLoop_code (env : SpiEnv) (token : Nat) :
    ∀ blocks tr acc e bw tr2,
      progLoop env token blocks tr acc = (some e, bw, tr2) → DriverCode env e := by
  intro blocks
  induction blocks with
  | zero =>
    intro tr acc e bw tr2 h
    simp [progLoop] at h
  | succ b ih =>
    intro tr acc e bw tr2 h
    simp only [progLoop, envDataWrite] at h
    split at h
    · simp only [Prod.mk.injEq, Option.some.injEq] at h
      obtain ⟨rfl, -, -⟩ := h
      exact driverCode_env env (envCode_dataWrite env tr.length)
    · exact ih _ _ _ _ _ h

theorem readLoop_code (env : SpiEnv) :
    ∀ blocks tr acc e br tr2,
      readLoop env blocks tr acc = (some e, br, tr2) → DriverCode env e := by
  intro blocks
  induction blocks with
  | zero =>
    intro tr acc e br tr2 h
    simp [readLoop] at h
  | succ b ih =>
    intro tr acc e br tr2 h
    simp only [readLoop, envDataRead] at h
    split at h
    · simp only [Prod.mk.injEq, Option.some.injEq] at h
      obtain ⟨rfl, -, -⟩ := h
      exact driverCode_env env (envCode_dataRead env tr.length)
    · exact ih _ _ _ _ _ h

theorem acmd41Loop_code (env : SpiEnv) (clock : Nat → Nat) (deadline : Nat) :
    ∀ fuel tr cIdx ty c ty2 tr2 cI2,
      acmd41Loop env clock deadline fuel tr cIdx ty = some (some c, ty2, tr2, cI2) →
      DriverCode env c := by
  intro fuel
  induction fuel with
  | zero =>
    intro tr cIdx ty c ty2 tr2 cI2 h
    simp [acmd41Loop] at h
  | succ f ih =>
    intro tr cIdx ty c ty2 tr2 cI2 h
    simp only [acmd41Loop, envCmd] at h
    repeat' split at h
    all_goals
      first
      | exact ih _ _ _ _ _ _ _ h
      | (simp only [Option.some.injEq, Prod.mk.injEq] at h
         obtain ⟨rfl, -, -, -⟩ := h
         first
         | exact driverCode_env env (envCode_command env _)
         | exact driverCode_eio env
         | exact driverCode_etimedout env)
      | simp at h

theorem cmd1Loop_code (env : SpiEnv) (clock : Nat → Nat) (deadline : Nat) :
    ∀ fuel tr cIdx c tr2 cI2,
      cmd1Loop env clock deadline fuel tr cIdx = some (some c, tr2, cI2) →
      DriverCode env c := by
  intro fuel
  induction fuel with
  | zero =>
    intro tr cIdx c tr2 cI2 h
    simp [cmd1Loop] at h
  | succ f ih =>
    intro tr cIdx c tr2 cI2 h
    simp only [cmd1Loop, envCmd] at h
    repeat' split at h
    all_goals
      first
      | exact ih _ _ _ _ _ h
      | (simp only [Option.some.injEq, Prod.mk.injEq] at h
         obtain ⟨rfl, -, -⟩ := h
         first
         | exact driverCode_env env (envCode_command env _)
         | exact driverCode_eio env
         | exact driverCode_etimedout env)
      | simp at h

theorem cmd1Phase_code (env : SpiEnv) (clock : Nat → Nat) (ty : CardType) (fuel : Nat)
    (tr : List SpiEvent) (cIdx : Nat) :
    ∀ c tr2 cI2, cmd1Phase env clock ty fuel tr cIdx = some (some c, tr2, cI2) →
      DriverCode env c := by
  intro c tr2 cI2 h
  unfold cmd1Phase at h
  split at h
  · exact cmd1Loop_code env clock _ fuel tr (cIdx + 1) c tr2 cI2 h
  · simp at h

theorem initCsdStep_code (card4 : Card) (env : SpiEnv) (tr : List SpiEvent) :
    DriverCode env (initCsdStep card4 env tr).1 := by
  simp only [initCsdStep, envCmd, envDataRead]
  repeat' split
  all_goals
    first
    | exact driverCode_env env (envCode_command env _)
    | exact driverCode_env env (envCode_dataRead env _)
    | exact driverCode_eio env
    | exact driverCode_zero env

theorem initBlocklenStep_code (card4 : Card) (env : SpiEnv) (tr : List SpiEvent) :
    DriverCode env (initBlocklenStep card4 env tr).1 := by
  simp only [initBlocklenStep, envCmd]
  repeat' split
  all_goals
    first
    | exact driverCode_env env (envCode_command env _)
    | exact driverCode_eio env
    | exact initCsdStep_code card4 env _

theorem initOcrStep_code (card3 : Card) (env : SpiEnv) (tr : List SpiEvent) :
    DriverCode env (initOcrStep card3 env tr).1 := by
  simp only [initOcrStep, envCmdR3]
  repeat' split
  all_goals
    first
    | exact driverCode_env env (envCode_commandR3 env _)
    | exact driverCode_eio env
    | exact initBlocklenStep_code _ env _

theorem initReconfStep_code (card3 : Card) (env : SpiEnv) (tr : List SpiEvent) :
    DriverCode env (initReconfStep card3 env tr).1 := by
  simp only [initReconfStep, envConfigure]
  split
  · exact driverCode_env env (envCode_configure env _)
  · exact initOcrStep_code card3 env _

theorem initIdStep_code (card1 : Card) (env : SpiEnv) (clock : Nat → Nat) (fuel : Nat)
    (tr : List SpiEvent) :
    ∀ c card2 tr2, initIdStep card1 env clock fuel tr = some (c, card2, tr2) →
      DriverCode env c := by
  intro c card2 tr2 h
  unfold initIdStep at h
  split at h
  · simp at h
  · simp only [Option.some.injEq, Prod.mk.injEq] at h
    obtain ⟨rfl, -, -⟩ := h
    apply acmd41Loop_code env clock <;> assumption
  · split at h
    · simp at h
    · simp only [Option.some.injEq, Prod.mk.injEq] at h
      obtain ⟨rfl, -, -⟩ := h
      apply cmd1Phase_code env clock <;> assumption
    · injection h with h2
      have h3 : _ = c := congrArg Prod.fst h2
      exact h3 ▸ initReconfStep_code _ env _

theorem initCard_code (card : Card) (env : SpiEnv) (clock : Nat → Nat) (fuel : Nat) :
    ∀ c card2 tr, initCard card env clock fuel = some (c, card2, tr) →
      DriverCode env c := by
  intro c card2 tr h
  simp only [initCard, envConfigure, envRaw, envCmd, envCmdR3] at h
  repeat' split at h
  all_goals
    first
    | (apply initIdStep_code _ env clock fuel <;> assumption)
    | (simp only [Option.some.injEq, Prod.mk.injEq] at h
       obtain ⟨rfl, -, -⟩ := h
       first
       | exact driverCode_env env (envCode_configure env _)
       | exact driverCode_env env (envCode_raw env _)
       | exact driverCode_env env (envCode_command env _)
       | exact driverCode_env env (envCode_commandR3 env _)
       | exact driverCode_eio env)

theorem openCard_code (card : Card) (env : SpiEnv) (clock : Nat → Nat) (fuel : Nat) :
    ∀ r, openCard card env clock fuel = some r → DriverCode env r.1 := by
  intro r h
  simp only [openCard] at h
  repeat' split at h
  all_goals
    first
    | (simp only [Option.some.injEq] at h
       rw [← h]
       first
       | exact driverCode_env env (envCode_open env)
       | exact driverCode_zero env
       | (apply initCard_code card env clock fuel <;> assumption))
    | simp at h

theorem eraseCmd38Step_code (env : SpiEnv) (tr : List SpiEvent) :
    DriverCode env (eraseCmd38Step env tr).1 := by
  simp only [eraseCmd38Step, envCmd, envBusy]
  repeat' split
  all_goals
    first
    | exact driverCode_env env (envCode_command env _)
    | exact driverCode_env env (envCode_busy env _)
    | exact driverCode_eio env
    | exact driverCode_zero env

theorem eraseCmd33Step_code (env : SpiEnv) (tr : List SpiEvent) (a2 : Nat) :
    DriverCode env (eraseCmd33Step env tr a2).1 := by
  simp only [eraseCmd33Step, envCmd]
  repeat' split
  all_goals
    first
    | exact driverCode_env env (envCode_command env _)
    | exact driverCode_eio env
    | exact eraseCmd38Step_code env _

theorem eraseCmd32Step_code (env : SpiEnv) (tr : List SpiEvent) (a1 a2 : Nat) :
    DriverCode env (eraseCmd32Step env tr a1 a2).1 := by
  simp only [eraseCmd32Step, envCmd]
  repeat' split
  all_goals
    first
    | exact driverCode_env env (envCode_command env _)
    | exact driverCode_eio env
    | exact eraseCmd33Step_code env _ a2

theorem eraseCard_code (card : Card) (env : SpiEnv) (address size : Nat) :
    DriverCode env (eraseCard card env address size).1 := by
  simp only [eraseCard, envConfigure]
  repeat' split
  all_goals
    first
    | exact driverCode_zero env
    | exact driverCode_ebadf env
    | exact driverCode_einval env
    | exact driverCode_enospc env
    | exact driverCode_env env (envCode_configure env _)
    | exact eraseCmd32Step_code env _ _ _

theorem programStopStep_code (env : SpiEnv) (tr : List SpiEvent) (bw : Nat) :
    DriverCode env (programStopStep env tr bw).1.1 := by
  simp only [programStopStep, envRaw, envBusy]
  repeat' split
  all_goals
    first
    | exact driverCode_env env (envCode_raw env _)
    | exact driverCode_env env (envCode_busy env _)
    | exact driverCode_zero env

theorem programBlocksStep_code (env : SpiEnv) (token blocks : Nat) (tr : List SpiEvent) :
    DriverCode env (programBlocksStep env token blocks tr).1.1 := by
  simp only [programBlocksStep]
  repeat' split
  all_goals
    first
    | (apply progLoop_code env <;> assumption)
    | exact programStopStep_code env _ _
    | exact driverCode_zero env

theorem programCard_code (card : Card) (env : SpiEnv) (address : Nat)
    (buffer : Option Nat) (size : Nat) :
    DriverCode env (programCard card env address buffer size).1.1 := by
  simp only [programCard, envConfigure, envCmd]
  repeat' split
  all_goals
    first
    | exact driverCode_zero env
    | exact driverCode_ebadf env
    | exact driverCode_einval env
    | exact driverCode_enospc env
    | exact driverCode_eio env
    | exact driverCode_env env (envCode_configure env _)
    | exact driverCode_env env (envCode_command env _)
    | exact programBlocksStep_code env _ _ _

theorem readStopStep_code (env : SpiEnv) (tr : List SpiEvent) (br : Nat) :
    DriverCode env (readStopStep env tr br).1.1 := by
  simp only [readStopStep, envCmd, envBusy]
  repeat' split
  all_goals
    first
    | exact driverCode_env env (envCode_command env _)
    | exact driverCode_env env (envCode_busy env _)
    | exact driverCode_eio env
    | exact driverCode_zero env

theorem readBlocksStep_code (env : SpiEnv) (blocks : Nat) (tr : List SpiEvent) :
    DriverCode env (readBlocksStep env blocks tr).1.1 := by
  simp only [readBlocksStep]
  repeat' split
  all_goals
    first
    | (apply readLoop_code env <;> assumption)
    | exact readStopStep_code env _ _
    | exact driverCode_zero env

theorem readCard_code (card : Card) (env : SpiEnv) (address : Nat)
    (buffer : Option Nat) (size : Nat) :
    DriverCode env (readCard card env address buffer size).1.1 := by
  simp only [readCard, envConfigure, envCmd]
  repeat' split
  all_goals
    first
    | exact driverCode_zero env
    | exact driverCode_ebadf env
    | exact driverCode_einval env
    | exact driverCode_enospc env
    | exact driverCode_eio env
    | exact driverCode_env env (envCode_configure env _)
    | exact driverCode_env env (envCode_command env _)
    | exact readBlocksStep_code env _ _

/-- C2: every public operation of the block-device driver reports failure by
an integer code from the closed set {0, EBADF, EINVAL, ENOSPC, EIO,
ETIMEDOUT} plus codes passed through unchanged from its collaborators,
returned to the immediate caller (the embedding is a total function: no
exceptions), with 0 distinguished as success since every named error
constant is nonzero. -/
theorem blockDevice_codes_closed (card : Card) (env : SpiEnv) (clock : Nat → Nat)
    (fuel address size : Nat) (buffer : Option Nat) :
    DriverCode env (eraseCard card env address size).1 ∧
    DriverCode env (programCard card env address buffer size).1.1 ∧
    DriverCode env (readCard card env address buffer size).1.1 ∧
    DriverCode env (lockCard env) ∧
    DriverCode env (unlockCard env) ∧
    DriverCode env synchronizeCard ∧
    DriverCode env (closeCard card env).1 ∧
    (∀ r, openCard card env clock fuel = some r → DriverCode env r.1) ∧
    EBADF ≠ 0 ∧ EINVAL ≠ 0 ∧ ENOSPC ≠ 0 ∧ EIO ≠ 0 ∧ ETIMEDOUT ≠ 0 ∧
    EAGAIN ≠ 0 ∧ EBUSY ≠ 0 ∧ EPERM ≠ 0 := by
  refine ⟨eraseCard_code card env address size,
    programCard_code card env address buffer size,
    readCard_code card env address buffer size,
    driverCode_env env (envCode_lock env),
    driverCode_env env (envCode_unlock env),
    driverCode_zero env,
    driverCode_env env (envCode_close env),
    openCard_code card env clock fuel,
    by decide, by decide, by decide, by decide, by decide, by decide, by decide,
    by decide⟩

/-- Witness for C2: the open path at a concrete failing environment; with
every oracle answer zeroed, CMD0 does not report the idle state and open
fails with EIO, which is in the closed code set. -/
theorem blockDevice_codes_closed_witness :
    DriverCode envZero ( EIO, (⟨CardType.unknown, false, 0, 0, 0⟩ : Card),
      [SpiEvent.configure, SpiEvent.rawWrite, SpiEvent.command 0 0]).1 :=
  (blockDevice_codes_closed cardOpened envZero (fun _ => 0) 5 0 512 none).2.2.2.2.2.2.2.1
    ( EIO, ⟨CardType.unknown, false, 0, 0, 0⟩,
      [SpiEvent.configure, SpiEvent.rawWrite, SpiEvent.command 0 0])
    (by decide)

/-! ## Recursive mutex (modelled from the spec)

Modelled from the spec: the Mutex implementation is not part of this source
fragment (only the MutexRecursiveOperationsTestCase header is); section 4.2
specifies the recursive type: lock succeeds immediately when unowned (owner
:= caller, count := 1), a re-lock by the owner increments the count and
returns immediately, the count lives in a fixed-width counter whose
exhaustion fails with an overflow-class code (EAGAIN in the BlockDevice lock
contract) without changing the state, and unlock decrements the count,
releasing ownership at zero; unlock by a non-owner fails with EPERM.  The
counter width is a parameter `maxCount`; a lock attempt by a different
thread would block and is represented by the non-blocking failure EBUSY,
which no theorem below exercises. -/

/-- Recursive-mutex state: owner (none when unowned) and recursion count. -/
structure RMutex where
  owner : Option Nat
  count : Nat
deriving DecidableEq

/-- Modelled from the spec: recursive lock by thread t. -/
def rmutexLock (maxCount : Nat) (m : RMutex) (t : Nat) : Int × RMutex :=
  match m.owner with
  | none => (0, ⟨some t, 1⟩)
  | some o =>
    if o = t then
      if m.count = maxCount then ( EAGAIN, m)
      else (0, ⟨some t, m.count + 1⟩)
    else ( EBUSY, m)

/-- Modelled from the spec: recursive unlock by thread t. -/
def rmutexUnlock (m : RMutex) (t : Nat) : Int × RMutex :=
  match m.owner with
  | some o =>
    if o = t then
      if m.count = 1 then (0, ⟨none, 0⟩)
      else (0, ⟨some t, m.count - 1⟩)
    else ( EPERM, m)
  | none => ( EPERM, m)

/-- n successive lock calls by thread t. -/
def lockN (maxCount t : Nat) : Nat → RMutex → RMutex
  | 0, m => m
  | n + 1, m => lockN maxCount t n (rmutexLock maxCount m t).2

/-- k successive unlock calls by thread t. -/
def unlockN (t : Nat) : Nat → RMutex → RMutex
  | 0, m => m
  | k + 1, m => unlockN t k (rmutexUnlock m t).2

theorem rmutexLock_step (maxCount t c : Nat) (h : c ≠ maxCount) :
    (rmutexLock maxCount ⟨some t, c⟩ t).2 = ⟨some t, c + 1⟩ := by
  simp [rmutexLock, h]

theorem rmutexUnlock_step (t c : Nat) (h : c ≠ 1) :
    (rmutexUnlock ⟨some t, c⟩ t).2 = ⟨some t, c - 1⟩ := by
  simp [rmutexUnlock, h]

theorem lockN_owned (maxCount t : Nat) :
    ∀ n c, 1 ≤ c → c + n ≤ maxCount →
      lockN maxCount t n ⟨some t, c⟩ = ⟨some t, c + n⟩ := by
  intro n
  induction n with
  | zero => intro c h1 h2; rfl
  | succ n ih =>
    intro c h1 h2
    show lockN maxCount t n (rmutexLock maxCount ⟨some t, c⟩ t).2 = _
    rw [rmutexLock_step maxCount t c (by omega), ih (c + 1) (by omega) (by omega)]
    congr 1
    omega

theorem lockN_fresh (maxCount t n : Nat) (h1 : 1 ≤ n) (h2 : n ≤ maxCount) :
    lockN maxCount t n ⟨none, 0⟩ = ⟨some t, n⟩ := by
  obtain ⟨n2, rfl⟩ : ∃ n2, n = n2 + 1 := ⟨n - 1, by omega⟩
  show lockN maxCount t n2 (rmutexLock maxCount ⟨none, 0⟩ t).2 = _
  have hfresh : (rmutexLock maxCount ⟨none, 0⟩ t).2 = ⟨some t, 1⟩ := rfl
  rw [hfresh, lockN_owned maxCount t n2 1 (by omega) (by omega)]
  congr 1
  omega

theorem unlockN_owned (t : Nat) :
    ∀ k c, k < c → unlockN t k ⟨some t, c⟩ = ⟨some t, c - k⟩ := by
  intro k
  induction k with
  | zero => intro c h; rfl
  | succ k ih =>
    intro c h
    show unlockN t k (rmutexUnlock ⟨some t, c⟩ t).2 = _
    rw [rmutexUnlock_step t c (by omega), ih (c - 1) (by omega)]
    congr 1
    omega

theorem unlockN_release (t : Nat) :
    ∀ c, 1 ≤ c → unlockN t c ⟨some t, c⟩ = ⟨none, 0⟩ := by
  intro c
  induction c with
  | zero => intro h; omega
  | succ c ih =>
    intro h
    show unlockN t c (rmutexUnlock ⟨some t, c + 1⟩ t).2 = _
    by_cases hc : c = 0
    · subst hc
      simp [rmutexUnlock, unlockN]
    · rw [rmutexUnlock_step t (c + 1) (by omega)]
      have hs : c + 1 - 1 = c := by omega
      rw [hs]
      exact ih (by omega)

/-- C5 (amended): for every n with 1 ≤ n ≤ maxCount, locking a recursive
mutex n times by the same thread and then unlocking it n times returns it to
the unowned state; unlocking only k < n times leaves it owned by that thread
with remaining count n − k; and each re-lock by the current owner below the
counter maximum increments the count and returns success immediately. -/
theorem recursive_lock_unlock (maxCount t n k : Nat)
    (hn : 1 ≤ n) (hmax : n ≤ maxCount) (hk : k < n) :
    unlockN t n (lockN maxCount t n ⟨none, 0⟩) = ⟨none, 0⟩ ∧
    unlockN t k (lockN maxCount t n ⟨none, 0⟩) = ⟨some t, n - k⟩ ∧
    (∀ m : RMutex, m.owner = some t → m.count < maxCount →
      rmutexLock maxCount m t = (0, ⟨some t, m.count + 1⟩)) := by
  refine ⟨?_, ?_, ?_⟩
  · rw [lockN_fresh maxCount t n hn hmax]
    exact unlockN_release t n hn
  · rw [lockN_fresh maxCount t n hn hmax]
    exact unlockN_owned t k n hk
  · intro m hown hcount
    rw [rmutexLock, hown]
    simp [show ¬ m.count = maxCount by omega]

/-- Witness for the amended C5: counter width 5, three locks, one unlock. -/
theorem recursive_lock_unlock_witness :
    unlockN 7 3 (lockN 5 7 3 ⟨none, 0⟩) = ⟨none, 0⟩ ∧
    unlockN 7 1 (lockN 5 7 3 ⟨none, 0⟩) = ⟨some 7, 2⟩ ∧
    (∀ m : RMutex, m.owner = some 7 → m.count < 5 →
      rmutexLock 5 m 7 = (0, ⟨some 7, m.count + 1⟩)) :=
  recursive_lock_unlock 5 7 3 1 (by omega) (by omega) (by omega)

/-- C5 counterexample: with a 2-valued counter, locking 3 times by thread 7
saturates at count 2 (the third lock fails with EAGAIN), so one unlock
leaves count 1, not n − k = 2, and the re-lock at the maximum does not
increment; the unbounded claim fails on the bounded counter mandated by the
spec recursive-limit clause. -/
theorem recursive_lock_unbounded_counterexample :
    unlockN 7 1 (lockN 2 7 3 ⟨none, 0⟩) = (⟨some 7, 1⟩ : RMutex) ∧
    (⟨some 7, 1⟩ : RMutex) ≠ ⟨some 7, 3 - 1⟩ ∧
    rmutexLock 2 ⟨some 7, 2⟩ 7 = ( EAGAIN, ⟨some 7, 2⟩) := by
  decide

/-- C6: a lock attempt by the owner when the fixed-width recursion counter
is at its maximum fails with the overflow-class code EAGAIN (nonzero) and
leaves the lock state unchanged instead of wrapping the count. -/
theorem recursive_lock_overflow (maxCount t : Nat) (m : RMutex)
    (hown : m.owner = some t) (hcount : m.count = maxCount) :
    rmutexLock maxCount m t = ( EAGAIN, m) ∧ EAGAIN ≠ 0 := by
  constructor
  · rw [rmutexLock, hown]
    simp [hcount]
  · decide

/-- Witness for C6: counter width 2, owner 7 at count 2. -/
theorem recursive_lock_overflow_witness :
    rmutexLock 2 ⟨some 7, 2⟩ 7 = ( EAGAIN, (⟨some 7, 2⟩ : RMutex)) ∧
    EAGAIN ≠ 0 :=
  recursive_lock_overflow 2 7 ⟨some 7, 2⟩ rfl rfl

/-! ## Priority inheritance (modelled from the spec)

Modelled from the spec: the Mutex/Scheduler implementation is not part of
this source fragment.  Spec sections 4.2 and 9: on blocking, the waiting
thread priority is compared with the owner effective priority and the owner
is raised to match when higher, the boost propagating transitively along the
chain of owners as an explicit bounded-depth walk; on unlock, ownership goes
to the head of the waiter list and the former owner effective priority is
recomputed as the maximum of its base priority and the priorities required
by the mutexes it still holds. -/

/-- State of the priority-inheritance protocol: per-thread base and
effective priorities, per-mutex owner and waiter list, per-thread blocking
mutex, and the list of all mutex ids. -/
structure PIState where
  base : Nat → Nat
  eff : Nat → Nat
  owner : Nat → Option Nat
  blockedOn : Nat → Option Nat
  waiting : Nat → List Nat
  muts : List Nat

/-- Modelled from the spec: the bounded-depth boost walk; raise thread t to
priority p when below it, and continue with the owner of the mutex t itself
is blocked on. -/
def boost (s : PIState) : Nat → Nat → Nat → PIState
  | 0, _, _ => s
  | fuel + 1, t, p =>
    if s.eff t < p then
      let s2 := { s with eff := Function.update s.eff t p }
      match s2.blockedOn t with
      | some m =>
        match s2.owner m with
        | some u => boost s2 fuel u p
        | none => s2
      | none => s2
    else s

/-- Modelled from the spec: thread h blocks on mutex m: it joins the waiter
list, records what it waits on, and boosts the owner chain with its
effective priority. -/
def blockOn (s : PIState) (h m : Nat) (fuel : Nat) : PIState :=
  let s1 := { s with blockedOn := Function.update s.blockedOn h (some m),
                     waiting := Function.update s.waiting m (s.waiting m ++ [h]) }
  match s1.owner m with
  | some l => boost s1 fuel l (s1.eff h)
  | none => s1

/-- The highest effective priority among waiters of mutexes still owned by
thread l. -/
def heldWaiterMax (s : PIState) (l : Nat) : Nat :=
  ((s.muts.filter (fun m3 => s.owner m3 = some l)).map
    (fun m3 => ((s.waiting m3).map s.eff).foldr max 0)).foldr max 0

/-- Modelled from the spec: thread l releases mutex m: ownership transfers
to the head of the waiter list and l gets its effective priority recomputed
as max of base priority and what its remaining mutexes require. -/
def releaseMutex (s : PIState) (l m : Nat) : PIState :=
  let next := (s.waiting m).head?
  let s1 := { s with owner := Function.update s.owner m next,
                     waiting := Function.update s.waiting m (s.waiting m).tail,
                     blockedOn := match next with
                       | some w => Function.update s.blockedOn w none
                       | none => s.blockedOn }
  { s1 with eff := Function.update s1.eff l (max (s1.base l) (heldWaiterMax s1 l)) }

theorem boost_mono (fuel : Nat) :
    ∀ (s : PIState) (t p x : Nat), s.eff x ≤ (boost s fuel t p).eff x := by
  induction fuel with
  | zero => intro s t p x; exact Nat.le_refl _
  | succ f ih =>
    intro s t p x
    rw [boost]
    by_cases hc : s.eff t < p
    · rw [if_pos hc]
      dsimp only
      have hup : s.eff x ≤ Function.update s.eff t p x := by
        by_cases hx : x = t
        · subst hx
          rw [Function.update_same]
          omega
        · rw [Function.update_noteq hx]
      cases hb : s.blockedOn t with
      | none => simp only [hb]; exact hup
      | some m =>
        simp only [hb]
        cases ho : s.owner m with
        | none => simp only [ho]; exact hup
        | some u =>
          simp only [ho]
          exact Nat.le_trans hup (ih { s with eff := Function.update s.eff t p } u p x)
    · rw [if_neg hc]

theorem boost_ge (fuel : Nat) (s : PIState) (t p : Nat) :
    p ≤ (boost s (fuel + 1) t p).eff t := by
  rw [boost]
  by_cases hc : s.eff t < p
  · rw [if_pos hc]
    dsimp only
    have hstart : p ≤ (Function.update s.eff t p) t := by
      rw [Function.update_same]
    cases hb : s.blockedOn t with
    | none => simp only [hb]; exact hstart
    | some m =>
      simp only [hb]
      cases ho : s.owner m with
      | none => simp only [ho]; exact hstart
      | some u =>
        simp only [ho]
        exact Nat.le_trans hstart
          (boost_mono fuel { s with eff := Function.update s.eff t p } u p t)
  · rw [if_neg hc]
    omega

/-- C7: when a thread H blocks on a priority-inheritance mutex owned by L,
the effective priority of L becomes at least that of H; the boost propagates
transitively to the owner U of the mutex L itself is blocked on; and upon
release with no other held mutex, the effective priority of the former owner
returns to its base (pre-boost) value. -/
theorem priority_inheritance (s : PIState) (h l u m m2 fuel : Nat)
    (hhl : h ≠ l) :
    (s.owner m = some l → s.eff h ≤ (blockOn s h m (fuel + 1)).eff l) ∧
    (s.owner m = some l → s.blockedOn l = some m2 → s.owner m2 = some u →
      s.eff l < s.eff h → s.eff h ≤ (blockOn s h m (fuel + 2)).eff u) ∧
    ((∀ m3 ∈ s.muts, s.owner m3 = some l → m3 = m) →
      (s.waiting m).head? ≠ some l →
      (releaseMutex s l m).eff l = s.base l) := by
  refine ⟨?_, ?_, ?_⟩
  · intro hown
    rw [blockOn]
    simp only [hown]
    exact boost_ge fuel _ l _
  · intro hown hblocked howner2 hlt
    rw [blockOn]
    simp only [hown]
    rw [boost]
    rw [if_pos (by simpa using hlt)]
    have hbl : Function.update s.blockedOn h (some m) l = some m2 := by
      rw [Function.update_noteq (by omega)]
      exact hblocked
    simp only [hbl, howner2]
    exact boost_ge fuel _ u _
  · intro honly hhead
    rw [releaseMutex]
    simp only [Function.update_same]
    have hempty : (releaseMutex s l m).muts.filter
        (fun m3 => Function.update s.owner m ((s.waiting m).head?) m3 = some l) = [] := by
      rw [List.filter_eq_nil_iff]
      intro m3 hm3
      by_cases hmm : m3 = m
      · subst hmm
        rw [Function.update_same]
        simpa using hhead
      · rw [Function.update_noteq hmm]
        simp only [decide_eq_true_eq]
        intro hcon
        exact hmm (honly m3 hm3 hcon)
    rw [show heldWaiterMax { s with
        owner := Function.update s.owner m ((s.waiting m).head?),
        waiting := Function.update s.waiting m (s.waiting m).tail,
        blockedOn := match (s.waiting m).head? with
          | some w => Function.update s.blockedOn w none
          | none => s.blockedOn } l = 0 from by
      rw [heldWaiterMax]
      simp only []
      rw [show List.filter (fun m3 =>
          decide (Function.update s.owner m ((s.waiting m).head?) m3 = some l)) s.muts
          = [] from by
        rw [List.filter_eq_nil_iff]
        intro m3 hm3
        by_cases hmm : m3 = m
        · subst hmm
          rw [Function.update_same]
          simpa using hhead
        · rw [Function.update_noteq hmm]
          simp only [decide_eq_true_eq]
          intro hcon
          exact hmm (honly m3 hm3 hcon)]
      rfl]
    omega

/-- The scenario of spec section 8: thread 0 (base priority 5) owns mutex 0,
thread 1 has priority 10 and is about to block on it. -/
def piSample : PIState :=
  ⟨fun t => if t = 1 then 10 else 5, fun t => if t = 1 then 10 else 5,
    fun m => if m = 0 then some 0 else none, fun _ => none, fun _ => [], [0]⟩

/-- Witness for C7: in the sample scenario the owner is boosted to at least
priority 10, and releasing its only mutex restores its base priority. -/
theorem priority_inheritance_witness :
    piSample.eff 1 ≤ (blockOn piSample 1 0 1).eff 0 ∧
    (releaseMutex piSample 0 0).eff 0 = piSample.base 0 :=
  ⟨(priority_inheritance piSample 1 0 0 0 0 0 (by decide)).1 (by decide),
   (priority_inheritance piSample 1 0 0 0 0 0 (by decide)).2.2 (by decide) (by decide)⟩

/-! ## Scheduler (modelled from the spec)

Modelled from the spec: the Scheduler implementation is not part of this
source fragment; sections 3/4.1/8 specify that selection always picks a
runnable thread of the highest present priority, FIFO among equals, that at
most one thread is running at any time on the single core, and that a
blocked or terminated thread is never run.  The termination path is from
src/source/threads/Thread.cpp: threadRunner calls run(), then removes the
thread from the scheduler, after which it never executes application code
again. -/

/-- The thread state machine of spec section 4.1. -/
inductive ThreadState where
  | created
  | runnable
  | running
  | blocked
  | terminated
deriving DecidableEq

/-- A thread control block: identity, priority and state. -/
structure TCB where
  tid : Nat
  priority : Nat
  tstate : ThreadState
deriving DecidableEq

/-- The scheduler state: the list of all thread control blocks, in FIFO
order within equal priorities. -/
structure Sched where
  threads : List TCB
deriving DecidableEq

/-- Modelled from the spec: selection picks the first runnable thread of the
highest present priority (FIFO among equal priorities). -/
def pickBest : List TCB → Option TCB
  | [] => none
  | t :: rest =>
    match pickBest rest with
    | none => if t.tstate = ThreadState.runnable then some t else none
    | some b =>
      if t.tstate = ThreadState.runnable ∧ b.priority ≤ t.priority then some t
      else some b

/-- The identity of the thread the scheduler would run next. -/
def schedule (s : Sched) : Option Nat :=
  (pickBest s.threads).map TCB.tid

/-- The termination path of Thread::threadRunner: after run() returns the
thread is removed from scheduling (its state becomes terminated). -/
def removeThread (s : Sched) (i : Nat) : Sched :=
  ⟨s.threads.map fun t =>
    if t.tid = i then { t with tstate := ThreadState.terminated } else t⟩

/-- Modelled from the spec: dispatch moves the selected thread into the
single running slot and demotes any previously running thread to runnable. -/
def dispatch (s : Sched) : Sched :=
  match pickBest s.threads with
  | none => s
  | some b =>
    ⟨s.threads.map fun t =>
      if t.tid = b.tid then { t with tstate := ThreadState.running }
      else if t.tstate = ThreadState.running then { t with tstate := ThreadState.runnable }
      else t⟩

theorem pickBest_none (l : List TCB) (h : pickBest l = none) :
    ∀ u ∈ l, u.tstate ≠ ThreadState.runnable := by
  induction l with
  | nil => intro u hu; cases hu
  | cons t rest ih =>
    intro u hu
    rw [pickBest] at h
    cases hr : pickBest rest with
    | none =>
      simp only [hr] at h
      rcases List.mem_cons.mp hu with rfl | hu2
      · intro hrun
        rw [if_pos hrun] at h
        cases h
      · exact ih hr u hu2
    | some b =>
      simp only [hr] at h
      split at h <;> cases h

theorem pickBest_spec (l : List TCB) (b : TCB) (h : pickBest l = some b) :
    b ∈ l ∧ b.tstate = ThreadState.runnable ∧
    ∀ u ∈ l, u.tstate = ThreadState.runnable → u.priority ≤ b.priority := by
  induction l generalizing b with
  | nil => cases h
  | cons t rest ih =>
    rw [pickBest] at h
    cases hr : pickBest rest with
    | none =>
      simp only [hr] at h
      have hnone := pickBest_none rest hr
      by_cases ht : t.tstate = ThreadState.runnable
      · rw [if_pos ht] at h
        obtain rfl : t = b := Option.some.inj h
        refine ⟨List.mem_cons_self t rest, ht, ?_⟩
        intro u hu hurun
        rcases List.mem_cons.mp hu with rfl | hu2
        · exact Nat.le_refl _
        · exact absurd hurun (hnone u hu2)
      · rw [if_neg ht] at h
        cases h
    | some c =>
      simp only [hr] at h
      obtain ⟨hcmem, hcrun, hcmax⟩ := ih c hr
      by_cases hcond : t.tstate = ThreadState.runnable ∧ c.priority ≤ t.priority
      · rw [if_pos hcond] at h
        obtain rfl : t = b := Option.some.inj h
        refine ⟨List.mem_cons_self t rest, hcond.1, ?_⟩
        intro u hu hurun
        rcases List.mem_cons.mp hu with rfl | hu2
        · exact Nat.le_refl _
        · exact Nat.le_trans (hcmax u hu2 hurun) hcond.2
      · rw [if_neg hcond] at h
        obtain rfl : c = b := Option.some.inj h
        refine ⟨List.mem_cons_of_mem t hcmem, hcrun, ?_⟩
        intro u hu hurun
        rcases List.mem_cons.mp hu with rfl | hu2
        · by_cases hup : u.priority ≤ c.priority
          · exact hup
          · exact absurd ⟨hurun, by omega⟩ hcond
        · exact hcmax u hu2 hurun

/-- C8: the scheduler only ever selects a runnable thread of the highest
priority present among runnable threads, never a blocked or terminated one;
a thread removed by the termination path (Thread::threadRunner after run()
returns) is never selected again; and dispatching into the single running
slot keeps at most one thread running. -/
theorem scheduler_runs_highest (s : Sched) (i : Nat)
    (hnodup : (s.threads.map TCB.tid).Nodup) :
    (∀ b, pickBest s.threads = some b →
      b ∈ s.threads ∧ b.tstate = ThreadState.runnable ∧
      ∀ u ∈ s.threads, u.tstate = ThreadState.runnable → u.priority ≤ b.priority) ∧
    (schedule s = some i → ∀ t ∈ s.threads, t.tid = i →
      t.tstate ≠ ThreadState.blocked ∧ t.tstate ≠ ThreadState.terminated) ∧
    schedule (removeThread s i) ≠ some i ∧
    (s.threads.countP (fun t => t.tstate = ThreadState.running) ≤ 1 →
      (dispatch s).threads.countP (fun t => t.tstate = ThreadState.running) ≤ 1) := by
  refine ⟨fun b => pickBest_spec s.threads b, ?_, ?_, ?_⟩
  · intro hsched t ht htid
    unfold schedule at hsched
    cases hb : pickBest s.threads with
    | none => rw [hb] at hsched; cases hsched
    | some b =>
      rw [hb] at hsched
      obtain rfl : b.tid = i := Option.some.inj hsched
      obtain ⟨hbmem, hbrun, -⟩ := pickBest_spec s.threads b hb
      have hinj := List.inj_on_of_nodup_map hnodup
      have heq : t = b := hinj ht hbmem (htid.trans rfl)
      subst heq
      rw [hbrun]
      refine ⟨?_, ?_⟩ <;> decide
  · intro hsched
    unfold schedule removeThread at hsched
    cases hb : pickBest (s.threads.map fun t =>
        if t.tid = i then { t with tstate := ThreadState.terminated } else t) with
    | none => rw [hb] at hsched; cases hsched
    | some b =>
      rw [hb] at hsched
      have hbtid : b.tid = i := Option.some.inj hsched
      obtain ⟨hbmem, hbrun, -⟩ := pickBest_spec _ b hb
      obtain ⟨t, ht, hft⟩ := List.mem_map.mp hbmem
      by_cases htid : t.tid = i
      · rw [if_pos htid] at hft
        rw [← hft] at hbrun
        cases hbrun
      · rw [if_neg htid] at hft
        rw [← hft] at hbtid
        exact htid hbtid
  · intro hpre
    unfold dispatch
    cases hb : pickBest s.threads with
    | none =>
      simp only [hb]
      exact hpre
    | some b =>
      simp only [hb]
      rw [List.countP_map]
      have hcong : ∀ x ∈ s.threads,
          ((fun t => decide (t.tstate = ThreadState.running)) ∘ fun t =>
            if t.tid = b.tid then { t with tstate := ThreadState.running }
            else if t.tstate = ThreadState.running then
              { t with tstate := ThreadState.runnable }
            else t) x = true ↔ (fun t => t.tid == b.tid) x = true := by
        intro x hx
        simp only [Function.comp_apply, decide_eq_true_eq, beq_iff_eq]
        by_cases hxid : x.tid = b.tid
        · rw [if_pos hxid]
          simp [hxid]
        · rw [if_neg hxid]
          by_cases hxrun : x.tstate = ThreadState.running
          · rw [if_pos hxrun]
            simp [hxid]
          · rw [if_neg hxrun]
            simp [hxid, hxrun]
      rw [List.countP_congr hcong]
      have hcomp : (fun t : TCB => t.tid == b.tid) = ((· == b.tid) ∘ TCB.tid) := rfl
      rw [hcomp, ← List.countP_map, ← List.count_eq_countP]
      exact List.nodup_iff_count_le_one.mp hnodup b.tid

/-- Three sample threads: priorities 3 and 7 runnable, 7 blocked. -/
def schedSample : Sched :=
  ⟨[⟨0, 3, ThreadState.runnable⟩, ⟨1, 7, ThreadState.runnable⟩,
    ⟨2, 7, ThreadState.blocked⟩]⟩

/-- Witness for C8: in the sample, the selected thread (id 1) is runnable of
maximal priority, and after the termination path removes it, it is never
selected again. -/
theorem scheduler_runs_highest_witness :
    ((⟨1, 7, ThreadState.runnable⟩ : TCB) ∈ schedSample.threads ∧
      (⟨1, 7, ThreadState.runnable⟩ : TCB).tstate = ThreadState.runnable ∧
      ∀ u ∈ schedSample.threads, u.tstate = ThreadState.runnable →
        u.priority ≤ (⟨1, 7, ThreadState.runnable⟩ : TCB).priority) ∧
    schedule (removeThread schedSample 1) ≠ some 1 :=
  ⟨(scheduler_runs_highest schedSample 1 (by decide)).1 ⟨1, 7, ThreadState.runnable⟩
      (by decide),
   (scheduler_runs_highest schedSample 1 (by decide)).2.2.1⟩
